import Mathlib

/-!
Verification of the streaming chat gateway of `next-ai-draw-io`
(`src-tauri/src/ai_commands.rs`, `src-tauri/src/ai_chat.rs`,
`src-tauri/src/commands.rs`).

Strings are modelled as `List Char` (`Str`), byte sequences as `List Nat`
(each entry `< 256` where it matters).  External library behaviour that the
gateway calls into (`String::from_utf8_lossy`, `serde_json` JSON parsing,
`str::trim`, `str::split`) is embedded as executable Lean functions that
follow the documented semantics of those library routines, since that
behaviour determines the observable behaviour of the gateway code.
-/

set_option maxRecDepth 40000

namespace DrawioGateway

abbrev Str := List Char

instance {ε α : Type} [DecidableEq ε] [DecidableEq α] : DecidableEq (Except ε α) := fun a b =>
  match a, b with
  | .ok x, .ok y =>
    if h : x = y then isTrue (by rw [h]) else isFalse (fun hh => h (Except.ok.inj hh))
  | .error x, .error y =>
    if h : x = y then isTrue (by rw [h]) else isFalse (fun hh => h (Except.error.inj hh))
  | .ok _, .error _ => isFalse (fun hh => Except.noConfusion hh)
  | .error _, .ok _ => isFalse (fun hh => Except.noConfusion hh)

/-- The Unicode replacement character U+FFFD, substituted by
`String::from_utf8_lossy` for ill-formed byte sequences. -/
def replChar : Char := Char.ofNat 0xFFFD

/-- A UTF-8 continuation byte (`0x80 ..= 0xBF`). -/
def isCont (b : Nat) : Bool := 0x80 ≤ b && b ≤ 0xBF

/-- Allowed second byte of a three-byte sequence, per the leading byte
(`E0` requires `A0..=BF`, `ED` requires `80..=9F`, otherwise `80..=BF`);
this is Rust's `core::str` validation table. -/
def valid3Second (b0 b1 : Nat) : Bool :=
  if b0 = 0xE0 then 0xA0 ≤ b1 && b1 ≤ 0xBF
  else if b0 = 0xED then 0x80 ≤ b1 && b1 ≤ 0x9F
  else isCont b1

/-- Allowed second byte of a four-byte sequence, per the leading byte
(`F0` requires `90..=BF`, `F4` requires `80..=8F`, otherwise `80..=BF`). -/
def valid4Second (b0 b1 : Nat) : Bool :=
  if b0 = 0xF0 then 0x90 ≤ b1 && b1 ≤ 0xBF
  else if b0 = 0xF4 then 0x80 ≤ b1 && b1 ≤ 0x8F
  else isCont b1

/-- Rust `String::from_utf8_lossy`: decodes a byte sequence to text, replacing
each maximal ill-formed subsequence unit with U+FFFD (one replacement per
error unit, as in Rust's std: an invalid leading byte consumes one byte, a
valid prefix of a multi-byte sequence followed by an invalid byte consumes
just that prefix, and a truncated sequence at the end of input yields a
single replacement). -/
def utf8Lossy : List Nat → List Char
  | [] => []
  | b0 :: rest =>
    if b0 ≤ 0x7F then Char.ofNat b0 :: utf8Lossy rest
    else if b0 < 0xC2 then replChar :: utf8Lossy rest
    else if b0 ≤ 0xDF then
      match rest with
      | [] => [replChar]
      | b1 :: rest1 =>
        if isCont b1 then
          Char.ofNat ((b0 - 0xC0) * 0x40 + (b1 - 0x80)) :: utf8Lossy rest1
        else replChar :: utf8Lossy (b1 :: rest1)
    else if b0 ≤ 0xEF then
      match rest with
      | [] => [replChar]
      | b1 :: rest1 =>
        if valid3Second b0 b1 then
          match rest1 with
          | [] => [replChar]
          | b2 :: rest2 =>
            if isCont b2 then
              Char.ofNat ((b0 - 0xE0) * 0x1000 + (b1 - 0x80) * 0x40 + (b2 - 0x80)) ::
                utf8Lossy rest2
            else replChar :: utf8Lossy (b2 :: rest2)
        else replChar :: utf8Lossy (b1 :: rest1)
    else if b0 ≤ 0xF4 then
      match rest with
      | [] => [replChar]
      | b1 :: rest1 =>
        if valid4Second b0 b1 then
          match rest1 with
          | [] => [replChar]
          | b2 :: rest2 =>
            if isCont b2 then
              match rest2 with
              | [] => [replChar]
              | b3 :: rest3 =>
                if isCont b3 then
                  Char.ofNat ((b0 - 0xF0) * 0x40000 + (b1 - 0x80) * 0x1000 +
                      (b2 - 0x80) * 0x40 + (b3 - 0x80)) :: utf8Lossy rest3
                else replChar :: utf8Lossy (b3 :: rest3)
            else replChar :: utf8Lossy (b2 :: rest2)
        else replChar :: utf8Lossy (b1 :: rest1)
    else replChar :: utf8Lossy rest

/-- Well-formed UTF-8 byte sequences: a concatenation of complete one- to
four-byte encodings obeying the `core::str` validation table (so with no
overlong forms, no surrogates, and no code point above U+10FFFF). -/
inductive ValidUtf8 : List Nat → Prop
  | nil : ValidUtf8 []
  | one {b0 rest} : b0 ≤ 0x7F → ValidUtf8 rest → ValidUtf8 (b0 :: rest)
  | two {b0 b1 rest} : 0xC2 ≤ b0 → b0 ≤ 0xDF → isCont b1 = true →
      ValidUtf8 rest → ValidUtf8 (b0 :: b1 :: rest)
  | three {b0 b1 b2 rest} : 0xE0 ≤ b0 → b0 ≤ 0xEF → valid3Second b0 b1 = true →
      isCont b2 = true → ValidUtf8 rest → ValidUtf8 (b0 :: b1 :: b2 :: rest)
  | four {b0 b1 b2 b3 rest} : 0xF0 ≤ b0 → b0 ≤ 0xF4 → valid4Second b0 b1 = true →
      isCont b2 = true → isCont b3 = true → ValidUtf8 rest →
      ValidUtf8 (b0 :: b1 :: b2 :: b3 :: rest)

/-- Rust `char::is_whitespace`: the Unicode `White_Space` code points. -/
def isRustWhitespace (c : Char) : Bool :=
  c.toNat ∈ [0x09, 0x0A, 0x0B, 0x0C, 0x0D, 0x20, 0x85, 0xA0, 0x1680,
    0x2000, 0x2001, 0x2002, 0x2003, 0x2004, 0x2005, 0x2006, 0x2007, 0x2008,
    0x2009, 0x200A, 0x2028, 0x2029, 0x202F, 0x205F, 0x3000]

/-- Drop leading whitespace (`str::trim_start`). -/
def trimStart : Str → Str
  | [] => []
  | c :: rest => if isRustWhitespace c then trimStart rest else c :: rest

/-- Rust `str::trim`: drop whitespace from both ends. -/
def trim (s : Str) : Str := trimStart ((trimStart s.reverse).reverse)

/-- Rust `str::strip_prefix`: `some` of the remainder when the first argument is
a prefix of the second. -/
def stripLeading : Str → Str → Option Str
  | [], s => some s
  | _ :: _, [] => none
  | p :: ps, c :: cs => if c = p then stripLeading ps cs else none

/-- Extract every complete line (terminated by `'\n'`) from the front of
the buffer, returning the lines (without their terminators) and the
remaining unterminated tail.  This models the source's
`while let Some(pos) = buffer.find('\n')` loop, which repeatedly removes
`buffer[..pos]` and the newline from the front of the buffer. -/
def extractLines : List Char → List (List Char) × List Char
  | [] => ([], [])
  | c :: rest =>
    if c = '\n' then ([] :: (extractLines rest).1, (extractLines rest).2)
    else
      match (extractLines rest).1 with
      | l :: ls => ((c :: l) :: ls, (extractLines rest).2)
      | [] => ([], c :: (extractLines rest).2)

mutual
/-- Model of `serde_json::Value`.  Numbers keep their source text (`num raw`): no
claim below compares numbers across distinct spellings, so the distinction
serde draws between integer and float representations is immaterial here. -/
inductive Json where
  | null : Json
  | bool (b : Bool) : Json
  | num (raw : Str) : Json
  | str (s : Str) : Json
  | arr (xs : JsonArr) : Json
  | obj (fields : JsonObj) : Json
deriving DecidableEq

/-- Array elements, in order. -/
inductive JsonArr where
  | nil : JsonArr
  | cons (hd : Json) (tl : JsonArr) : JsonArr
deriving DecidableEq

/-- Object members, in parse order with duplicate keys overwritten in
place (`serde_json`'s map keeps one value per key, the last one parsed). -/
inductive JsonObj where
  | nil : JsonObj
  | cons (key : Str) (val : Json) (tl : JsonObj) : JsonObj
deriving DecidableEq
end

def JsonArr.toList : JsonArr → List Json
  | .nil => []
  | .cons x tl => x :: tl.toList

def JsonArr.ofList : List Json → JsonArr
  | [] => .nil
  | x :: xs => .cons x (JsonArr.ofList xs)

/-- Map lookup (`serde_json::Map::get`); keys are unique by construction. -/
def JsonObj.find : JsonObj → Str → Option Json
  | .nil, _ => none
  | .cons k v tl, key => if k = key then some v else tl.find key

/-- Map insert (`serde_json::Map::insert`): overwrite an existing key's
value in place, otherwise append. -/
def JsonObj.insert : JsonObj → Str → Json → JsonObj
  | .nil, key, v => .cons key v .nil
  | .cons k w tl, key, v =>
    if k = key then .cons k v tl else .cons k w (tl.insert key v)

/-- Lookup `Value::get(key)`: member lookup on objects, `None` on anything else. -/
def Json.get (j : Json) (key : Str) : Option Json :=
  match j with
  | .obj fs => fs.find key
  | _ => none

/-- Accessor `Value::as_str`. -/
def Json.asStr : Json → Option Str
  | .str s => some s
  | _ => none

/-- Accessor `Value::as_array`. -/
def Json.asArray : Json → Option (List Json)
  | .arr xs => some xs.toList
  | _ => none

/-- Accessor `Value::as_object`. -/
def Json.asObject : Json → Option JsonObj
  | .obj fs => some fs
  | _ => none

/-- The `{` character, U+007B. -/
def lbrace : Char := Char.ofNat 0x7B

/-- The `}` character, U+007D. -/
def rbrace : Char := Char.ofNat 0x7D

/-- JSON insignificant whitespace (space, tab, line feed, carriage return). -/
def jsonWs (c : Char) : Bool := c = ' ' || c = '\t' || c = '\n' || c = '\r'

/-- Drop leading JSON whitespace. -/
def skipWs : Str → Str
  | [] => []
  | c :: rest => if jsonWs c then skipWs rest else c :: rest

/-- Value of one hexadecimal digit. -/
def hexVal (c : Char) : Option Nat :=
  if '0' ≤ c ∧ c ≤ '9' then some (c.toNat - 48)
  else if 'a' ≤ c ∧ c ≤ 'f' then some (c.toNat - 87)
  else if 'A' ≤ c ∧ c ≤ 'F' then some (c.toNat - 55)
  else none

/-- Body of a JSON string after the opening quote: plain characters,
short escapes, and `\uXXXX` escapes (with surrogate pairs combined and
lone surrogates rejected, as `serde_json` does); unescaped control
characters are rejected.  Returns the decoded content and the input after
the closing quote. -/
def parseStringBody : Nat → Str → Option (Str × Str)
  | 0, _ => none
  | _ + 1, [] => none
  | fuel + 1, c :: rest =>
    if c = '"' then some ([], rest)
    else if c = '\\' then
      match rest with
      | [] => none
      | e :: rest1 =>
        if e = '"' ∨ e = '\\' ∨ e = '/' then
          (parseStringBody fuel rest1).map (fun p => (e :: p.1, p.2))
        else if e = 'b' then
          (parseStringBody fuel rest1).map (fun p => (Char.ofNat 0x08 :: p.1, p.2))
        else if e = 'f' then
          (parseStringBody fuel rest1).map (fun p => (Char.ofNat 0x0C :: p.1, p.2))
        else if e = 'n' then
          (parseStringBody fuel rest1).map (fun p => ('\n' :: p.1, p.2))
        else if e = 'r' then
          (parseStringBody fuel rest1).map (fun p => ('\r' :: p.1, p.2))
        else if e = 't' then
          (parseStringBody fuel rest1).map (fun p => ('\t' :: p.1, p.2))
        else if e = 'u' then
          match rest1 with
          | h1 :: h2 :: h3 :: h4 :: rest2 =>
            match hexVal h1, hexVal h2, hexVal h3, hexVal h4 with
            | some a, some b, some c2, some d =>
              let v := ((a * 16 + b) * 16 + c2) * 16 + d
              if 0xD800 ≤ v ∧ v ≤ 0xDBFF then
                match rest2 with
                | '\\' :: 'u' :: g1 :: g2 :: g3 :: g4 :: rest3 =>
                  match hexVal g1, hexVal g2, hexVal g3, hexVal g4 with
                  | some a2, some b2, some c3, some d2 =>
                    let w := ((a2 * 16 + b2) * 16 + c3) * 16 + d2
                    if 0xDC00 ≤ w ∧ w ≤ 0xDFFF then
                      (parseStringBody fuel rest3).map (fun p =>
                        (Char.ofNat (0x10000 + (v - 0xD800) * 0x400 + (w - 0xDC00)) :: p.1, p.2))
                    else none
                  | _, _, _, _ => none
                | _ => none
              else if 0xDC00 ≤ v ∧ v ≤ 0xDFFF then none
              else (parseStringBody fuel rest2).map (fun p => (Char.ofNat v :: p.1, p.2))
            | _, _, _, _ => none
          | _ => none
        else none
    else if c.toNat < 0x20 then none
    else (parseStringBody fuel rest).map (fun p => (c :: p.1, p.2))

/-- Optional fraction part after the integer part of a JSON number. -/
def parseFracPart (raw : Str) (s : Str) : Option (Str × Str) :=
  match s with
  | '.' :: r =>
    let digs := r.takeWhile Char.isDigit
    if digs = [] then none else some (raw ++ '.' :: digs, r.dropWhile Char.isDigit)
  | _ => some (raw, s)

/-- Optional exponent part of a JSON number. -/
def parseExpPart (raw : Str) (s : Str) : Option (Str × Str) :=
  match s with
  | e :: r =>
    if e = 'e' ∨ e = 'E' then
      let signAndRest : Str × Str :=
        match r with
        | c :: r2 => if c = '+' ∨ c = '-' then ([c], r2) else ([], r)
        | [] => ([], r)
      let digs := signAndRest.2.takeWhile Char.isDigit
      if digs = [] then none
      else some (raw ++ e :: signAndRest.1 ++ digs, signAndRest.2.dropWhile Char.isDigit)
    else some (raw, s)
  | [] => some (raw, s)

/-- A JSON number per the RFC 8259 grammar (which `serde_json` follows):
optional minus, integer part with no leading zero, optional fraction,
optional exponent.  The lexed text is kept as the value. -/
def parseNumber (s : Str) : Option (Json × Str) :=
  let minusAndRest : Str × Str :=
    match s with
    | '-' :: r => (['-'], r)
    | _ => ([], s)
  let intAndRest : Option (Str × Str) :=
    match minusAndRest.2 with
    | '0' :: r =>
      match r with
      | d :: _ => if d.isDigit then none else some (minusAndRest.1 ++ ['0'], r)
      | [] => some (minusAndRest.1 ++ ['0'], [])
    | d :: _ =>
      if d.isDigit then
        some (minusAndRest.1 ++ minusAndRest.2.takeWhile Char.isDigit,
          minusAndRest.2.dropWhile Char.isDigit)
      else none
    | [] => none
  match intAndRest with
  | none => none
  | some (raw1, r1) =>
    match parseFracPart raw1 r1 with
    | none => none
    | some (raw2, r2) =>
      match parseExpPart raw2 r2 with
      | none => none
      | some (raw3, r3) => some (Json.num raw3, r3)

mutual
/-- Recursive-descent JSON value parser (`serde_json::from_str` grammar);
the fuel argument only bounds recursion depth and is chosen generously by
`parseJson`. -/
def parseValue : Nat → Str → Option (Json × Str)
  | 0, _ => none
  | fuel + 1, s =>
    match skipWs s with
    | [] => none
    | c :: rest =>
      if c = 'n' then (stripLeading ("ull".data) rest).map (fun r => (Json.null, r))
      else if c = 't' then (stripLeading ("rue".data) rest).map (fun r => (Json.bool true, r))
      else if c = 'f' then (stripLeading ("alse".data) rest).map (fun r => (Json.bool false, r))
      else if c = '"' then
        (parseStringBody (rest.length + 1) rest).map (fun p => (Json.str p.1, p.2))
      else if c = '[' then
        match skipWs rest with
        | ']' :: r => some (Json.arr .nil, r)
        | s1 => (parseArrayItems fuel s1).map (fun p => (Json.arr (JsonArr.ofList p.1), p.2))
      else if c = lbrace then
        match skipWs rest with
        | c1 :: r => if c1 = rbrace then some (Json.obj .nil, r)
                     else parseObjMembers fuel (c1 :: r) .nil
        | [] => none
      else parseNumber (c :: rest)

/-- One or more comma-separated array elements, then `]`. -/
def parseArrayItems : Nat → Str → Option (List Json × Str)
  | 0, _ => none
  | fuel + 1, s =>
    match parseValue fuel s with
    | none => none
    | some (v, r) =>
      match skipWs r with
      | ',' :: r2 => (parseArrayItems fuel r2).map (fun p => (v :: p.1, p.2))
      | ']' :: r2 => some ([v], r2)
      | _ => none

/-- One or more `"key": value` members, then `}`; duplicate keys overwrite. -/
def parseObjMembers : Nat → Str → JsonObj → Option (Json × Str)
  | 0, _, _ => none
  | fuel + 1, s, acc =>
    match s with
    | '"' :: r =>
      match parseStringBody (r.length + 1) r with
      | none => none
      | some (key, r1) =>
        match skipWs r1 with
        | ':' :: r2 =>
          match parseValue fuel r2 with
          | none => none
          | some (v, r3) =>
            let acc1 := acc.insert key v
            match skipWs r3 with
            | ',' :: r4 =>
              match skipWs r4 with
              | '"' :: r5 => parseObjMembers fuel ('"' :: r5) acc1
              | _ => none
            | c :: r4 => if c = rbrace then some (Json.obj acc1, r4) else none
            | [] => none
        | _ => none
    | _ => none
end

/-- Model of `serde_json::from_str::<serde_json::Value>`: parse exactly one JSON
value, allowing trailing whitespace only. -/
def parseJson (s : Str) : Option Json :=
  match parseValue (2 * s.length + 8) s with
  | some (v, rest) => if skipWs rest = [] then some v else none
  | none => none

/-- Token usage statistics (`UsageStats` in `ai_chat.rs`). -/
structure UsageStats where
  inputTokens : Nat
  outputTokens : Nat
  cachedInputTokens : Option Nat
deriving DecidableEq

/-- The events delivered on the `chat-stream` channel (`StreamEvent` in
`ai_chat.rs`). -/
inductive StreamEvent where
  | start : StreamEvent
  | textDelta (delta : Str) : StreamEvent
  | toolCallStart (toolCallId : Str) (toolName : Str) : StreamEvent
  | toolInputDelta (toolCallId : Str) (delta : Str) : StreamEvent
  | toolInputComplete (toolCallId : Str) (toolName : Str) (input : Json) : StreamEvent
  | finish (usage : Option UsageStats) : StreamEvent
  | error (err : Str) : StreamEvent
deriving DecidableEq

/-- The per-stream tool-call accumulator
(`HashMap<String, (String, String)>` keyed by call id, holding the tool
name and the accumulated argument text).  Modelled as an association list
in insertion order; the code never relies on iteration order. -/
abbrev AccMap := List (Str × Str × Str)

/-- Whether the map has an entry for `id` (`HashMap::contains_key`). -/
def mapContains (m : AccMap) (id : Str) : Bool := m.any (fun e => e.1 = id)

/-- Operation `tool_call_args.entry(id).or_insert((name, String::new()))`: keep an
existing entry untouched, otherwise add `(id, name, "")`. -/
def mapOrInsert (m : AccMap) (id name : Str) : AccMap :=
  if mapContains m id then m else m ++ [(id, name, [])]

/-- Operation `if let Some((_, acc)) = tool_call_args.get_mut(id)` followed by `acc.push_str(args)`:
append to the entry's accumulated text when the entry exists, otherwise do
nothing. -/
def mapAppendArgs (m : AccMap) (id args : Str) : AccMap :=
  m.map (fun e => if e.1 = id then (e.1, e.2.1, e.2.2 ++ args) else e)

/-- Lookup `HashMap::get`. -/
def mapLookup (m : AccMap) (id : Str) : Option (Str × Str) :=
  match m with
  | [] => none
  | e :: rest => if e.1 = id then some e.2 else mapLookup rest id

/-- Processing of one element of a `tool_calls` array
(`ai_commands.rs` lines 241-270): nothing happens without a string `id`
and an object `function`; a string `function.name` inserts the entry (if
new) and emits `ToolCallStart`; a string `function.arguments` appends to
the entry *if one exists* and emits `ToolInputDelta`. -/
def handleToolCall (tc : Json) (m : AccMap) : AccMap × List StreamEvent :=
  match (tc.get ("id".data)).bind Json.asStr with
  | none => (m, [])
  | some id =>
    match (tc.get ("function".data)).bind Json.asObject with
    | none => (m, [])
    | some fn =>
      let afterName : AccMap × List StreamEvent :=
        match (fn.find ("name".data)).bind Json.asStr with
        | some name => (mapOrInsert m id name, [.toolCallStart id name])
        | none => (m, [])
      match (fn.find ("arguments".data)).bind Json.asStr with
      | some args =>
        (mapAppendArgs afterName.1 id args, afterName.2 ++ [.toolInputDelta id args])
      | none => afterName

/-- Left-to-right processing of a `tool_calls` array. -/
def handleToolCalls (tcs : List Json) (m : AccMap) : AccMap × List StreamEvent :=
  match tcs with
  | [] => (m, [])
  | tc :: rest =>
    let p := handleToolCall tc m
    let q := handleToolCalls rest p.1
    (q.1, p.2 ++ q.2)

/-- Processing of `choices[0].delta` (`ai_commands.rs` lines 229-273): a
non-empty string `content` emits `TextDelta`; a `tool_calls` array is
processed element by element. -/
def handleDelta (delta : JsonObj) (m : AccMap) : AccMap × List StreamEvent :=
  let contentEvs : List StreamEvent :=
    match (delta.find ("content".data)).bind Json.asStr with
    | some content => if content ≠ [] then [.textDelta content] else []
    | none => []
  match (delta.find ("tool_calls".data)).bind Json.asArray with
  | some tcs =>
    let p := handleToolCalls tcs m
    (p.1, contentEvs ++ p.2)
  | none => (m, contentEvs)

/-- Finalization at a finish signal (`ai_commands.rs` lines 279-289): for
every entry of the map, parse the accumulated argument text as JSON and
emit `ToolInputComplete` on success; entries whose text does not parse
produce nothing.  The map itself is not cleared. -/
def finalizeToolCalls : AccMap → List StreamEvent
  | [] => []
  | (id, name, args) :: rest =>
    match parseJson args with
    | some v => .toolInputComplete id name v :: finalizeToolCalls rest
    | none => finalizeToolCalls rest

/-- Processing of one parsed SSE JSON object (`ai_commands.rs` lines
227-292): descend `choices[0]`, handle its `delta` if it is an object,
then, if `finish_reason` is the string `"stop"` or `"tool_calls"`,
finalize every accumulated tool call. -/
def handleParsed (j : Json) (m : AccMap) : AccMap × List StreamEvent :=
  match (j.get ("choices".data)).bind Json.asArray with
  | none => (m, [])
  | some choices =>
    match choices.head? with
    | none => (m, [])
    | some choice =>
      let afterDelta : AccMap × List StreamEvent :=
        match (choice.get ("delta".data)).bind Json.asObject with
        | some delta => handleDelta delta m
        | none => (m, [])
      let finishEvs : List StreamEvent :=
        match (choice.get ("finish_reason".data)).bind Json.asStr with
        | some r =>
          if r = ("stop".data) ∨ r = ("tool_calls".data) then finalizeToolCalls afterDelta.1
          else []
        | none => []
      (afterDelta.1, afterDelta.2 ++ finishEvs)

/-- Processing of one extracted line (`ai_commands.rs` lines 217-296):
trim it; skip it when empty or equal to the `data: [DONE]` sentinel; strip
the `data: ` prefix (lines without it are skipped); parse the remainder as
JSON (parse failures are skipped). -/
def handleLine (line : List Char) (m : AccMap) : AccMap × List StreamEvent :=
  let l := trim line
  if l = [] ∨ l = ("data: [DONE]".data) then (m, [])
  else
    match stripLeading ("data: ".data) l with
    | some d =>
      match parseJson d with
      | some j => handleParsed j m
      | none => (m, [])
    | none => (m, [])

/-- Process a batch of extracted lines in order. -/
def handleLines (ls : List (List Char)) (m : AccMap) : AccMap × List StreamEvent :=
  match ls with
  | [] => (m, [])
  | l :: rest =>
    let p := handleLine l m
    let q := handleLines rest p.1
    (q.1, p.2 ++ q.2)

/-- The line stream produced by feeding byte chunks through the decoder
with a carried text buffer: each chunk is decoded with `utf8Lossy`,
appended to the buffer, and every complete line is extracted from the
front; whatever remains when the source ends is discarded. -/
def sseFeed : List (List Nat) → List Char → List (List Char)
  | [], _ => []
  | c :: cs, buf =>
    let p := extractLines (buf ++ utf8Lossy c)
    p.1 ++ sseFeed cs p.2

/-- Lines produced from a chunked SSE body, starting from an empty buffer. -/
def sseLines (chunks : List (List Nat)) : List (List Char) := sseFeed chunks []

/-- The parsed JSON delta objects of a chunked SSE body: one per extracted
line that survives trimming, is not the sentinel, carries the `data: `
prefix, and parses as JSON. -/
def sseDeltas (chunks : List (List Nat)) : List Json :=
  (sseLines chunks).filterMap (fun line =>
    let l := trim line
    if l = [] ∨ l = ("data: [DONE]".data) then none
    else
      match stripLeading ("data: ".data) l with
      | some d => parseJson d
      | none => none)

/-- The streaming loop of `chat_stream` (`ai_commands.rs` lines 209-297):
consume chunks until the source ends, returning an error as soon as a
chunk arrives as a stream error; otherwise decode, buffer, extract lines
and handle each one, emitting events in order.  Event emission itself is
modelled as always succeeding (the code ignores failures of non-terminal
emissions). -/
def sseLoop : List (Except Str (List Nat)) → List Char → AccMap →
    List StreamEvent × Except Str Unit
  | [], _, _ => ([], .ok ())
  | .error e :: _, _, _ => ([], .error (("Stream error: ".data) ++ e))
  | .ok c :: cs, buf, m =>
    let p := extractLines (buf ++ utf8Lossy c)
    let q := handleLines p.1 m
    let r := sseLoop cs p.2 q.1
    (q.2 ++ r.1, r.2)

/-- Enumeration `AIProvider` (`ai_chat.rs`). -/
inductive AIProvider where
  | openai | anthropic | gemini | bedrock | groq | deepseek | ollama | cohere
deriving DecidableEq

/-- ASCII lowercasing of a string; the provider names the code matches
against are all ASCII, for which Rust's `str::to_lowercase` agrees. -/
def lowerStr (s : Str) : Str := s.map Char.toLower

/-- Parser-free model of `AIProvider::from_string`: case-insensitive match, with `"google"` as
a synonym for Gemini; anything else is an unknown-provider error. -/
def AIProvider.fromString (s : Str) : Except Str AIProvider :=
  let l := lowerStr s
  if l = ("openai".data) then .ok .openai
  else if l = ("anthropic".data) then .ok .anthropic
  else if l = ("gemini".data) ∨ l = ("google".data) then .ok .gemini
  else if l = ("bedrock".data) then .ok .bedrock
  else if l = ("groq".data) then .ok .groq
  else if l = ("deepseek".data) then .ok .deepseek
  else if l = ("ollama".data) then .ok .ollama
  else if l = ("cohere".data) then .ok .cohere
  else .error (("Unknown provider: ".data) ++ s)

/-- The `{:?}` (Debug) rendering of a provider, used in the missing-key
error message of `chat_stream`. -/
def providerDebugName : AIProvider → Str
  | .openai => "OpenAI".data
  | .anthropic => "Anthropic".data
  | .gemini => "Gemini".data
  | .bedrock => "Bedrock".data
  | .groq => "Groq".data
  | .deepseek => "DeepSeek".data
  | .ollama => "Ollama".data
  | .cohere => "Cohere".data

/-- The process environment variables read by the gateway, each possibly
unset (`std::env::var` failures are treated as absent by the code). -/
structure Env where
  accessCodeList : Option Str
  aiProvider : Option Str
  aiModel : Option Str
  openaiApiKey : Option Str
  anthropicApiKey : Option Str
  geminiApiKey : Option Str
  googleGenerativeAiApiKey : Option Str
  groqApiKey : Option Str
  deepseekApiKey : Option Str
  cohereApiKey : Option Str
  openaiBaseUrl : Option Str
  anthropicBaseUrl : Option Str
  deepseekBaseUrl : Option Str
  ollamaBaseUrl : Option Str
deriving DecidableEq

/-- An environment with every variable unset. -/
def emptyEnv : Env :=
  ⟨none, none, none, none, none, none, none, none, none, none, none, none, none, none⟩

/-- Structure `AIConfig` (`ai_chat.rs`). -/
structure AIConfig where
  provider : AIProvider
  modelId : Str
  apiKey : Option Str
  baseUrl : Option Str
deriving DecidableEq

/-- The provider-specific credential environment variable lookup of
`AIConfig::from_env_and_overrides` (Bedrock and Ollama have none). -/
def envApiKey (env : Env) : AIProvider → Option Str
  | .openai => env.openaiApiKey
  | .anthropic => env.anthropicApiKey
  | .gemini => env.geminiApiKey.orElse (fun _ => env.googleGenerativeAiApiKey)
  | .groq => env.groqApiKey
  | .deepseek => env.deepseekApiKey
  | .cohere => env.cohereApiKey
  | .bedrock => none
  | .ollama => none

/-- The provider-specific base-URL environment variable lookup of
`AIConfig::from_env_and_overrides` (only four providers have one). -/
def envBaseUrl (env : Env) : AIProvider → Option Str
  | .openai => env.openaiBaseUrl
  | .anthropic => env.anthropicBaseUrl
  | .deepseek => env.deepseekBaseUrl
  | .ollama => env.ollamaBaseUrl
  | _ => none

/-- Resolver `AIConfig::from_env_and_overrides`: each field prefers the explicit
override and falls back to the environment; a missing provider or model is
a fatal configuration error, a missing credential or base URL is not (at
this stage). -/
def fromEnvAndOverrides (providerOverride modelOverride apiKeyOverride baseUrlOverride :
    Option Str) (env : Env) : Except Str AIConfig :=
  match providerOverride.orElse (fun _ => env.aiProvider) with
  | none => .error ("AI_PROVIDER not configured".data)
  | some providerStr =>
    match AIProvider.fromString providerStr with
    | .error e => .error e
    | .ok provider =>
      match modelOverride.orElse (fun _ => env.aiModel) with
      | none => .error ("AI_MODEL not configured".data)
      | some modelId =>
        let apiKey := apiKeyOverride.orElse (fun _ => envApiKey env provider)
        let baseUrl := baseUrlOverride.orElse (fun _ => envBaseUrl env provider)
        .ok ⟨provider, modelId, apiKey, baseUrl⟩

/-- The hard-coded default base URL used by `chat_stream` when none is
resolved (OpenAI-compatible default for every other provider). -/
def defaultBaseUrl : AIProvider → Str
  | .openai => "https://api.openai.com/v1".data
  | .anthropic => "https://api.anthropic.com/v1".data
  | .deepseek => "https://api.deepseek.com/v1".data
  | _ => "https://api.openai.com/v1".data

/-- Variant type `MessagePart` (`ai_chat.rs`): the tagged content-part variants of a UI
message. -/
inductive MessagePart where
  | text (t : Str) : MessagePart
  | file (url : Str) (mediaType : Option Str) : MessagePart
  | toolCall (toolCallId : Str) (toolName : Str) (input : Json) : MessagePart
  | toolResult (toolCallId : Str) (toolName : Str) (result : Json) : MessagePart
deriving DecidableEq

/-- Structure `UIMessage` (`ai_chat.rs`). -/
structure UIMessage where
  role : Str
  parts : List MessagePart
deriving DecidableEq

/-- Structure `ChatRequestPayload` (`ai_chat.rs`), already deserialized. -/
structure ChatRequestPayload where
  messages : List UIMessage
  xml : Option Str
  previousXml : Option Str
  sessionId : Option Str
  accessCode : Option Str
deriving DecidableEq

/-- The text parts of a message, in order. -/
def textPartsOf (parts : List MessagePart) : List Str :=
  parts.filterMap (fun p =>
    match p with
    | .text t => some t
    | _ => none)

/-- The flat content of one message: the text of all its `Text` parts
joined with `"\n"` (`Vec::join`); non-text parts are dropped.  Both
`chat_stream` and `convert_ui_messages_to_genai` build content this way. -/
def msgContent (msg : UIMessage) : Str :=
  List.intercalate ['\n'] (textPartsOf msg.parts)

/-- Prompt builder `get_system_prompt` (`ai_chat.rs`): the constant prompt, with a
minimal-style banner prefix when the flag is set.  The source also takes
a model-id argument it never reads; it is omitted here. -/
def getSystemPrompt (minimalStyle : Bool) : Str :=
  let basePrompt := ("You are an expert diagram creation assistant specializing in draw.io XML generation.\nYour primary function is chat with user and crafting clear, well-organized visual diagrams through precise XML specifications.\n\nWhen you are asked to create a diagram, briefly describe your plan about the layout and structure to avoid object overlapping or edge cross the objects. (2-3 sentences max), then use display_diagram tool to generate the XML.\n\nYou utilize the following tools:\n- display_diagram: Display a NEW diagram on draw.io\n- edit_diagram: Edit specific parts of the EXISTING diagram\n- append_diagram: Continue generating diagram XML when display_diagram was truncated\n\nIMPORTANT: Generate ONLY mxCell elements - NO wrapper tags (<mxfile>, <mxGraphModel>, <root>).\n".data)
  if minimalStyle then ("## ⚠️ MINIMAL STYLE MODE ACTIVE ⚠️\n\n".data) ++ basePrompt
  else basePrompt

/-- The diagram-context system text of `chat_stream` (lines 134-143):
previous and current XML embedded in fenced code blocks, empty when the
request carries no current XML. -/
def xmlContext (request : ChatRequestPayload) : Str :=
  match request.xml with
  | some xml =>
    (match request.previousXml with
     | some prev =>
       ("Previous diagram XML:\n```xml\n".data) ++ prev ++ ("\n```\n\n".data)
     | none => []) ++
    ("Current diagram XML:\n```xml\n".data) ++ xml ++ ("\n```".data)
  | none => []

/-- A `{"role": ..., "content": ...}` message object of the outbound
request body. -/
def mkRoleMsg (role content : Str) : Json :=
  Json.obj (.cons ("role".data) (.str role)
    (.cons ("content".data) (.str content) .nil))

/-- The `messages` array of the outbound request body (`ai_commands.rs`
lines 146-166): the system prompt, the diagram context when non-empty,
then every incoming message with its role passed through verbatim and its
text parts joined. -/
def buildMessages (systemPrompt : Str) (request : ChatRequestPayload) : List Json :=
  [mkRoleMsg ("system".data) systemPrompt] ++
    (if xmlContext request ≠ [] then [mkRoleMsg ("system".data) (xmlContext request)] else []) ++
    request.messages.map (fun msg => mkRoleMsg msg.role (msgContent msg))

/-- The access-code allow-list parsed from `ACCESS_CODE_LIST`:
comma-separated, entries trimmed, empty entries dropped. -/
def accessCodesOf (s : Str) : List Str :=
  ((s.splitOn ',').map trim).filter (fun e => e ≠ [])

/-- The pre-flight access gate of `chat_stream` (lines 93-106): passes
when the variable is unset or parses to an empty list; otherwise the
request's code (empty string when absent) must be in the list. -/
def accessCheck (env : Env) (requestCode : Option Str) : Bool :=
  match env.accessCodeList with
  | none => true
  | some s =>
    let codes := accessCodesOf s
    if codes.isEmpty then true
    else decide ((requestCode.getD []) ∈ codes)

/-- The outcome of the single outbound HTTP POST, an oracle input to the
model: the send itself can fail, or a response arrives with a status (its
success flag and display text), an error body (read only on non-success),
and a stream of chunks each of which may be a stream error. -/
inductive HttpOutcome where
  | sendError (msg : Str) : HttpOutcome
  | response (statusSuccess : Bool) (statusText : Str) (errorBody : Str)
      (chunks : List (Except Str (List Nat))) : HttpOutcome

/-- The `chat_stream` Tauri command (`ai_commands.rs`), as the ordered
list of events it emits on the `chat-stream` channel together with its
`Result`.  The payload argument is the outcome of `serde_json::from_str`
on the payload string (deserialization of the inbound JSON is outside the
gateway's own code); `http` is the outcome of the outbound request; event
emission is modelled as succeeding. -/
def chatStream (env : Env) (payload : Except Str ChatRequestPayload)
    (providerOverride modelOverride apiKeyOverride baseUrlOverride : Option Str)
    (minimalStyle : Option Bool) (http : HttpOutcome) :
    List StreamEvent × Except Str Unit :=
  match payload with
  | .error e => ([], .error (("Invalid request: ".data) ++ e))
  | .ok request =>
    if !accessCheck env request.accessCode then
      ([], .error ("Invalid or missing access code".data))
    else
      match fromEnvAndOverrides providerOverride modelOverride apiKeyOverride
          baseUrlOverride env with
      | .error e => ([], .error e)
      | .ok config =>
        match config.apiKey with
        | none => ([], .error (providerDebugName config.provider ++
            (" API key not configured".data)))
        | some _apiKey =>
          let _baseUrl := config.baseUrl.getD (defaultBaseUrl config.provider)
          let _messages := buildMessages (getSystemPrompt (minimalStyle.getD false)) request
          match http with
          | .sendError e => ([.start], .error (("Request failed: ".data) ++ e))
          | .response statusSuccess statusText errorBody chunks =>
            if !statusSuccess then
              ([.start], .error (("API error ".data) ++ statusText ++ (": ".data) ++ errorBody))
            else
              let p := sseLoop chunks [] []
              match p.2 with
              | .error e => (.start :: p.1, .error e)
              | .ok _ => (.start :: p.1 ++ [.finish none], .ok ())

/-- Roles of `genai::chat::ChatMessage` accepted by the normalizer. -/
inductive ChatRole where
  | system | user | assistant
deriving DecidableEq

/-- Structure `genai::chat::ChatMessage`, as far as the normalizer constructs it. -/
structure ChatMessage where
  role : ChatRole
  content : Str
deriving DecidableEq

/-- Normalizer `convert_ui_messages_to_genai` (`ai_chat.rs` lines 162-190): join the
text parts of each message, accept only the three known roles, fail on
anything else with an unknown-role error. -/
def convertUiMessagesToGenai : List UIMessage → Except Str (List ChatMessage)
  | [] => .ok []
  | msg :: rest =>
    let content := msgContent msg
    let converted : Except Str ChatMessage :=
      if msg.role = ("user".data) then .ok ⟨.user, content⟩
      else if msg.role = ("assistant".data) then .ok ⟨.assistant, content⟩
      else if msg.role = ("system".data) then .ok ⟨.system, content⟩
      else .error (("Unknown role: ".data) ++ msg.role)
    match converted with
    | .error e => .error e
    | .ok m =>
      match convertUiMessagesToGenai rest with
      | .error e => .error e
      | .ok ms => .ok (m :: ms)

/-- Splitting a flat content string at newlines; this is the spec's
stated inverse of the newline join, not an operation of the source. -/
def splitByNewline (s : Str) : List Str := s.splitOn '\n'

/-- Terminal events of the stream protocol: `Finish` and `Error`. -/
def isTerminal : StreamEvent → Bool
  | .finish _ => true
  | .error _ => true
  | _ => false

/-- Events allowed strictly between `Start` and the terminal event. -/
def isMidEvent : StreamEvent → Bool
  | .textDelta _ => true
  | .toolCallStart _ _ => true
  | .toolInputDelta _ _ => true
  | .toolInputComplete _ _ _ => true
  | _ => false

/-- The three roles the normalizer accepts. -/
def knownRole (r : Str) : Bool :=
  r = ("user".data) || r = ("assistant".data) || r = ("system".data)

/-- Overwrite every credential environment variable with the same value
(used to state that a present credential override makes them irrelevant). -/
def setCredVars (e : Env) (v : Option Str) : Env :=
  { e with
    openaiApiKey := v
    anthropicApiKey := v
    geminiApiKey := v
    googleGenerativeAiApiKey := v
    groqApiKey := v
    deepseekApiKey := v
    cohereApiKey := v }

/-- Overwrite every base-URL environment variable with the same value. -/
def setBaseVars (e : Env) (v : Option Str) : Env :=
  { e with
    openaiBaseUrl := v
    anthropicBaseUrl := v
    deepseekBaseUrl := v
    ollamaBaseUrl := v }

/-- An all-ASCII well-formed SSE body carrying one content delta. -/
def sseAsciiBody : List Nat :=
  ("data: \x7b\"choices\":[\x7b\"delta\":\x7b\"content\":\"Hi\"\x7d\x7d]\x7d\n".data.map Char.toNat)

/-- A well-formed SSE body whose content is the two-byte character
`é` (bytes `C3 A9`). -/
def sseAccentPrefix : List Nat :=
  ("data: \x7b\"choices\":[\x7b\"delta\":\x7b\"content\":\"".data.map Char.toNat)

/-- The tail of that body, after the two-byte character. -/
def sseAccentSuffix : List Nat := ("\"\x7d\x7d]\x7d\n".data.map Char.toNat)

/-- A sequence of bytes all below 0x80 is well-formed UTF-8. -/
theorem validUtf8_of_ascii {l : List Nat} (h : ∀ b ∈ l, b ≤ 0x7F) : ValidUtf8 l := by
  induction l with
  | nil => exact .nil
  | cons b rest ih =>
    exact .one (h b (.head _)) (ih fun x hx => h x (.tail _ hx))

/-- Decoding distributes over concatenation when the left part is
well-formed UTF-8: a well-formed prefix is decoded independently of what
follows it. -/
theorem utf8Lossy_append {a : List Nat} (b : List Nat) (h : ValidUtf8 a) :
    utf8Lossy (a ++ b) = utf8Lossy a ++ utf8Lossy b := by
  induction h with
  | nil => simp [utf8Lossy]
  | one h0 _ ih =>
    rw [List.cons_append, utf8Lossy.eq_def, utf8Lossy.eq_def (_ :: _)]
    simp [h0, ih]
  | @two b0 b1 rest h0 h1 h2 _ ih =>
    have n0 : ¬ b0 ≤ 0x7F := by omega
    have n1 : ¬ b0 < 0xC2 := by omega
    rw [List.cons_append, List.cons_append, utf8Lossy.eq_def,
      utf8Lossy.eq_def (b0 :: b1 :: rest)]
    simp [n0, n1, h1, h2, ih]
  | @three b0 b1 b2 rest h0 h1 h2 h3 _ ih =>
    have n0 : ¬ b0 ≤ 0x7F := by omega
    have n1 : ¬ b0 < 0xC2 := by omega
    have n2 : ¬ b0 ≤ 0xDF := by omega
    rw [List.cons_append, List.cons_append, List.cons_append, utf8Lossy.eq_def,
      utf8Lossy.eq_def (b0 :: b1 :: b2 :: rest)]
    simp [n0, n1, n2, h1, h2, h3, ih]
  | @four b0 b1 b2 b3 rest h0 h1 h2 h3 h4 _ ih =>
    have n0 : ¬ b0 ≤ 0x7F := by omega
    have n1 : ¬ b0 < 0xC2 := by omega
    have n2 : ¬ b0 ≤ 0xDF := by omega
    have n3 : ¬ b0 ≤ 0xEF := by omega
    rw [List.cons_append, List.cons_append, List.cons_append, List.cons_append,
      utf8Lossy.eq_def, utf8Lossy.eq_def (b0 :: b1 :: b2 :: b3 :: rest)]
    simp [n0, n1, n2, n3, h1, h2, h3, h4, ih]

/-- Decoding a concatenation of well-formed chunks is the concatenation of
the chunkwise decodings. -/
theorem utf8Lossy_flatten {chunks : List (List Nat)}
    (h : ∀ c ∈ chunks, ValidUtf8 c) :
    utf8Lossy chunks.flatten = (chunks.map utf8Lossy).flatten := by
  induction chunks with
  | nil => simp [utf8Lossy]
  | cons c cs ih =>
    simp only [List.flatten_cons, List.map_cons]
    rw [utf8Lossy_append _ (h c (.head _)), ih fun x hx => h x (.tail _ hx)]

/-- A buffer without a newline yields no line and is kept whole. -/
theorem extractLines_of_no_newline {buf : List Char} (h : '\n' ∉ buf) :
    extractLines buf = ([], buf) := by
  induction buf with
  | nil => simp [extractLines]
  | cons c rest ih =>
    have hc : ¬ c = '\n' := fun hh => h (hh ▸ List.mem_cons_self _ _)
    have hr : '\n' ∉ rest := fun hh => h (List.mem_cons_of_mem _ hh)
    simp [extractLines, hc, ih hr]

/-- The remainder left by line extraction contains no newline. -/
theorem newline_not_mem_extractLines_snd (buf : List Char) :
    '\n' ∉ (extractLines buf).2 := by
  induction buf with
  | nil => simp [extractLines]
  | cons c rest ih =>
    by_cases hc : c = '\n'
    · simpa [extractLines, hc] using ih
    · cases hA : (extractLines rest).1 with
      | nil =>
        simp only [extractLines, hc, if_false, hA]
        intro hmem
        rcases List.mem_cons.mp hmem with h1 | h1
        · exact hc h1.symm
        · exact ih h1
      | cons l ls => simpa [extractLines, hc, hA] using ih

/-- Line extraction composes across concatenation: the lines of `a ++ b`
are the lines of `a` followed by the lines of `a`'s remainder glued onto
`b`, and the final remainder comes from that second pass. -/
theorem extractLines_append (a b : List Char) :
    extractLines (a ++ b) =
      ((extractLines a).1 ++ (extractLines ((extractLines a).2 ++ b)).1,
       (extractLines ((extractLines a).2 ++ b)).2) := by
  induction a with
  | nil => simp [extractLines]
  | cons c a' ih =>
    by_cases hc : c = '\n'
    · simp [extractLines, hc, ih]
    · cases hA : (extractLines a').1 with
      | cons l ls => simp [extractLines, hc, ih, hA]
      | nil =>
        cases hX : (extractLines ((extractLines a').2 ++ b)).1 with
        | nil => simp [extractLines, hc, ih, hA, hX]
        | cons l ls => simp [extractLines, hc, ih, hA, hX]

/-- The streaming feed with a newline-free starting buffer produces
exactly the complete lines of the buffer followed by all decoded chunks. -/
theorem sseFeed_eq (cs : List (List Nat)) : ∀ buf, '\n' ∉ buf →
    sseFeed cs buf = (extractLines (buf ++ (cs.map utf8Lossy).flatten)).1 := by
  induction cs with
  | nil =>
    intro buf h
    simp [sseFeed, extractLines_of_no_newline h]
  | cons c cs' ih =>
    intro buf h
    rw [sseFeed]
    have h2 := newline_not_mem_extractLines_snd (buf ++ utf8Lossy c)
    rw [ih _ h2, List.map_cons, List.flatten_cons, ← List.append_assoc,
      extractLines_append (buf ++ utf8Lossy c)]

/-- C1 (amended): SSE decoding is chunk-boundary-invariant for every split
whose chunks are each well-formed UTF-8 (equivalently, whose boundaries
fall on character boundaries of a well-formed body): the decoder yields
the same ordered sequence of parsed delta objects as feeding the whole
body as one chunk.  The unrestricted claim fails because the code decodes
each chunk independently with `from_utf8_lossy`, so a boundary inside a
multi-byte character produces replacement characters (see the
counterexample). -/
theorem sse_chunk_boundary_invariance (chunks : List (List Nat))
    (h : ∀ c ∈ chunks, ValidUtf8 c) :
    sseDeltas chunks = sseDeltas [chunks.flatten] := by
  unfold sseDeltas sseLines
  rw [sseFeed_eq chunks [] (by simp), sseFeed_eq [chunks.flatten] [] (by simp)]
  simp only [List.map_cons, List.map_nil, List.flatten_cons, List.flatten_nil,
    List.append_nil, List.nil_append]
  rw [utf8Lossy_flatten h]

/-- C1 witness: the invariance theorem applied to a concrete ASCII body
split in the middle of its single `data: ` line. -/
theorem sse_chunk_boundary_invariance_witness :
    (∀ c ∈ [sseAsciiBody.take 10, sseAsciiBody.drop 10], ValidUtf8 c) ∧
      sseDeltas [sseAsciiBody.take 10, sseAsciiBody.drop 10] =
        sseDeltas [[sseAsciiBody.take 10, sseAsciiBody.drop 10].flatten] := by
  have hv : ∀ c ∈ [sseAsciiBody.take 10, sseAsciiBody.drop 10], ValidUtf8 c := by
    intro c hc
    apply validUtf8_of_ascii
    rcases List.mem_cons.mp hc with rfl | hc2
    · decide
    · rcases List.mem_cons.mp hc2 with rfl | hc3
      · decide
      · exact absurd hc3 (List.not_mem_nil c)
  exact ⟨hv, sse_chunk_boundary_invariance _ hv⟩

/-- C1 counterexample: the claim as stated is false.  The body is a single
well-formed SSE data line whose content is the two-byte character `é`;
splitting it between the two bytes of `é` makes the decoder substitute two
replacement characters, so the parsed delta object differs from the
unsplit decoding. -/
theorem sse_chunk_boundary_counterexample :
    sseDeltas [sseAccentPrefix ++ [0xC3], [0xA9] ++ sseAccentSuffix] ≠
      sseDeltas [(sseAccentPrefix ++ [0xC3]) ++ ([0xA9] ++ sseAccentSuffix)] := by
  decide

/-- C10: an element of a `tool_calls` array without a string-valued `id`
field is ignored entirely: no event is emitted for it and the accumulator
map is unchanged, whatever else the element carries. -/
theorem toolcall_without_string_id_ignored (tc : Json) (m : AccMap)
    (h : (tc.get ("id".data)).bind Json.asStr = none) :
    handleToolCall tc m = (m, []) := by
  unfold handleToolCall
  rw [h]

/-- C10 witness: a concrete element carrying a function name and an
argument fragment but no `id` is dropped without touching a non-empty
accumulator. -/
theorem toolcall_without_string_id_ignored_witness :
    ((Json.obj (.cons ("function".data)
        (Json.obj (.cons ("name".data) (.str ("display_diagram".data))
          (.cons ("arguments".data) (.str ("\x7b\x7d".data)) .nil))) .nil)).get
        ("id".data)).bind Json.asStr = none ∧
      handleToolCall
        (Json.obj (.cons ("function".data)
          (Json.obj (.cons ("name".data) (.str ("display_diagram".data))
            (.cons ("arguments".data) (.str ("\x7b\x7d".data)) .nil))) .nil))
        [(("c0".data), ("edit_diagram".data), [])] =
        ([(("c0".data), ("edit_diagram".data), [])], []) :=
  ⟨by decide, toolcall_without_string_id_ignored _ _ (by decide)⟩

/-- Extracting text parts from a list of pure text parts recovers the
texts. -/
theorem textPartsOf_map_text (ts : List Str) :
    textPartsOf (ts.map MessagePart.text) = ts := by
  induction ts with
  | nil => rfl
  | cons t rest ih => simp [textPartsOf] at ih ⊢; exact ih

/-- The parsed allow-list never contains the empty string (empty entries
are dropped). -/
theorem nil_not_mem_accessCodesOf (s : Str) : [] ∉ accessCodesOf s := by
  intro h
  have := List.of_mem_filter h
  simp at this

/-- C9 (amended): for every message consisting of at least one Text part
none of whose texts contains a newline, joining the part texts with a
newline separator (as the normalizer does) and splitting the result by
newline recovers exactly the original parts.  The unrestricted claim
fails when a part itself contains a newline (see the counterexample),
since the separator cannot be told apart from embedded newlines. -/
theorem join_split_roundtrip (role : Str) (ts : List Str) (hne : ts ≠ [])
    (h : ∀ t ∈ ts, '\n' ∉ t) :
    splitByNewline (msgContent ⟨role, ts.map MessagePart.text⟩) = ts := by
  unfold msgContent splitByNewline
  rw [textPartsOf_map_text]
  exact List.splitOn_intercalate ts '\n' h hne

/-- C9 witness: the roundtrip at a concrete two-part message. -/
theorem join_split_roundtrip_witness :
    ([("a".data), ("b".data)] ≠ ([] : List Str)) ∧
      (∀ t ∈ [("a".data), ("b".data)], '\n' ∉ t) ∧
      splitByNewline (msgContent ⟨("user".data),
        [("a".data), ("b".data)].map MessagePart.text⟩) = [("a".data), ("b".data)] :=
  ⟨by decide, by decide,
    join_split_roundtrip ("user".data) [("a".data), ("b".data)] (by decide) (by decide)⟩

/-- C9 counterexample: with a single Text part containing a newline, the
split does not recover the original part list. -/
theorem join_split_counterexample :
    splitByNewline (msgContent ⟨("user".data), [MessagePart.text ("a\nb".data)]⟩) ≠
      [("a\nb".data)] := by
  decide

/-- C3: when the configured allow-list is non-empty, the gate passes iff
the supplied code is in the list; an absent code always fails; a failing
gate makes `chat_stream` return the access-denied error before emitting
any event and independently of the HTTP outcome.  When the variable is
unset or parses to an empty list, every request passes the gate. -/
theorem access_gate_spec (env : Env) (req : ChatRequestPayload) :
    (∀ s, env.accessCodeList = some s → accessCodesOf s ≠ [] →
      ((accessCheck env req.accessCode = true ↔
          req.accessCode.getD [] ∈ accessCodesOf s) ∧
        (req.accessCode = none → accessCheck env req.accessCode = false) ∧
        (accessCheck env req.accessCode = false →
          ∀ po mo ko bo ms http,
            chatStream env (.ok req) po mo ko bo ms http =
              ([], .error ("Invalid or missing access code".data))))) ∧
    ((env.accessCodeList = none ∨
        ∃ s, env.accessCodeList = some s ∧ accessCodesOf s = []) →
      accessCheck env req.accessCode = true) := by
  constructor
  · intro s hs hne
    have hCheck : accessCheck env req.accessCode =
        decide (req.accessCode.getD [] ∈ accessCodesOf s) := by
      unfold accessCheck
      rw [hs]
      simp [List.isEmpty_iff, hne]
    refine ⟨?_, ?_, ?_⟩
    · rw [hCheck]
      exact decide_eq_true_iff
    · intro hnone
      rw [hCheck, hnone]
      simp [nil_not_mem_accessCodesOf]
    · intro hfalse po mo ko bo ms http
      simp [chatStream, hfalse]
  · rintro (hn | ⟨s, hs, hempty⟩)
    · unfold accessCheck
      rw [hn]
    · unfold accessCheck
      rw [hs]
      simp [hempty]

/-- C3 witness: the gate at the allow-list `"A1, B2"`: code `"B2"` passes,
code `"x"` is rejected before any event, independent of two distinct HTTP
outcomes. -/
theorem access_gate_spec_witness :
    (accessCodesOf ("A1, B2".data) ≠ []) ∧
      accessCheck { emptyEnv with accessCodeList := some ("A1, B2".data) }
        (some ("B2".data)) = true ∧
      chatStream { emptyEnv with accessCodeList := some ("A1, B2".data) }
        (.ok ⟨[], none, none, none, some ("x".data)⟩) (some ("openai".data))
        (some ("gpt".data)) (some ("k".data)) none none (.sendError ("n".data)) =
        ([], .error ("Invalid or missing access code".data)) :=
  ⟨by decide,
    ((access_gate_spec { emptyEnv with accessCodeList := some ("A1, B2".data) }
        ⟨[], none, none, none, some ("B2".data)⟩).1 _ rfl (by decide)).1.mpr (by decide),
    ((access_gate_spec { emptyEnv with accessCodeList := some ("A1, B2".data) }
        ⟨[], none, none, none, some ("x".data)⟩).1 _ rfl (by decide)).2.2 (by decide)
      _ _ _ _ _ _⟩

/-- C6: override precedence in config resolution.  With all four overrides
present the environment is irrelevant and each resolved field is its
override; and for each field individually, when its override is present
the corresponding environment variables can be rewritten arbitrarily
without changing the result (the environment is consulted only when the
override is absent). -/
theorem config_override_precedence (e : Env) (p m k b : Str) :
    (∀ e2 : Env, fromEnvAndOverrides (some p) (some m) (some k) (some b) e =
      fromEnvAndOverrides (some p) (some m) (some k) (some b) e2) ∧
    (∀ cfg : AIConfig,
      fromEnvAndOverrides (some p) (some m) (some k) (some b) e = .ok cfg →
        AIProvider.fromString p = .ok cfg.provider ∧ cfg.modelId = m ∧
          cfg.apiKey = some k ∧ cfg.baseUrl = some b) ∧
    (∀ (po mo ko bo v : Option Str),
      fromEnvAndOverrides (some p) mo ko bo { e with aiProvider := v } =
          fromEnvAndOverrides (some p) mo ko bo e ∧
      fromEnvAndOverrides po (some m) ko bo { e with aiModel := v } =
          fromEnvAndOverrides po (some m) ko bo e ∧
      fromEnvAndOverrides po mo (some k) bo (setCredVars e v) =
          fromEnvAndOverrides po mo (some k) bo e ∧
      fromEnvAndOverrides po mo ko (some b) (setBaseVars e v) =
          fromEnvAndOverrides po mo ko (some b) e) := by
  refine ⟨fun e2 => rfl, ?_, fun po mo ko bo v => ⟨rfl, rfl, rfl, rfl⟩⟩
  intro cfg h
  rw [show fromEnvAndOverrides (some p) (some m) (some k) (some b) e =
      (match AIProvider.fromString p with
       | .error e1 => .error e1
       | .ok pr => .ok ⟨pr, m, some k, some b⟩) from rfl] at h
  rcases hp : AIProvider.fromString p with e1 | pr <;> rw [hp] at h <;> dsimp only at h
  · exact absurd h (by simp)
  · rcases Except.ok.inj h with rfl
    exact ⟨rfl, rfl, rfl, rfl⟩

/-- C6 witness: full-override resolution at a concrete environment, and
the resolved fields equal the overrides. -/
theorem config_override_precedence_witness :
    fromEnvAndOverrides (some ("openai".data)) (some ("gpt".data)) (some ("k".data))
        (some ("u".data)) { emptyEnv with aiModel := some ("other".data) } =
      .ok ⟨.openai, ("gpt".data), some ("k".data), some ("u".data)⟩ ∧
      (AIProvider.fromString ("openai".data) = .ok AIProvider.openai ∧
        (("gpt".data) : Str) = ("gpt".data) ∧
        (some ("k".data) : Option Str) = some ("k".data) ∧
        (some ("u".data) : Option Str) = some ("u".data)) :=
  ⟨by decide,
    (config_override_precedence { emptyEnv with aiModel := some ("other".data) }
      ("openai".data) ("gpt".data) ("k".data) ("u".data)).2.1
      ⟨.openai, ("gpt".data), some ("k".data), some ("u".data)⟩ (by decide)⟩

/-- C7 counterexample: with provider Ollama, no credential override and no
credential environment variable, config resolution succeeds with the
credential absent — but the chat-stream command rejects the request for
the missing credential, before `Start` and before any network I/O. -/
theorem bedrock_ollama_keyless_counterexample :
    fromEnvAndOverrides (some ("ollama".data)) (some ("m".data)) none none emptyEnv =
      .ok ⟨.ollama, ("m".data), none, none⟩ ∧
    chatStream emptyEnv (.ok ⟨[], none, none, none, none⟩) (some ("ollama".data))
        (some ("m".data)) none none none (.response true ("200".data) [] []) =
      ([], .error ("Ollama API key not configured".data)) := by
  constructor
  · decide
  · decide

/-- C7 (amended): for Bedrock and Ollama a missing credential is not a
*resolution* error — `from_env_and_overrides` succeeds with the credential
absent (their credential lookup is the constant `None`) — but `chat_stream`
unconditionally requires a credential, so any request whose resolved
credential is absent is rejected with an API-key-not-configured error, for
every provider including Bedrock and Ollama. -/
theorem bedrock_ollama_keyless_amended :
    (∀ (e : Env) (mo : Str),
      fromEnvAndOverrides (some ("bedrock".data)) (some mo) none none e =
        .ok ⟨.bedrock, mo, none, none⟩ ∧
      fromEnvAndOverrides (some ("ollama".data)) (some mo) none none e =
        .ok ⟨.ollama, mo, none, e.ollamaBaseUrl⟩) ∧
    (∀ (env : Env) (req : ChatRequestPayload) (po mo ko bo : Option Str)
        (ms : Option Bool) (http : HttpOutcome) (cfg : AIConfig),
      accessCheck env req.accessCode = true →
      fromEnvAndOverrides po mo ko bo env = .ok cfg →
      cfg.apiKey = none →
      chatStream env (.ok req) po mo ko bo ms http =
        ([], .error (providerDebugName cfg.provider ++ (" API key not configured".data)))) := by
  constructor
  · exact fun e mo => ⟨rfl, rfl⟩
  · intro env req po mo ko bo ms http cfg hac hcfg hkey
    simp [chatStream, hac, hcfg, hkey]

/-- C7 witness: the amended theorem at a concrete keyless Ollama request. -/
theorem bedrock_ollama_keyless_amended_witness :
    (accessCheck emptyEnv none = true) ∧
      (fromEnvAndOverrides (some ("ollama".data)) (some ("m".data)) none none emptyEnv =
        .ok ⟨.ollama, ("m".data), none, none⟩) ∧
      ((⟨.ollama, ("m".data), none, none⟩ : AIConfig).apiKey = none) ∧
      chatStream emptyEnv (.ok ⟨[], none, none, none, none⟩) (some ("ollama".data))
        (some ("m".data)) none none none (.sendError ("n".data)) =
        ([], .error (providerDebugName AIProvider.ollama ++ (" API key not configured".data))) :=
  ⟨by decide, by decide, by decide,
    bedrock_ollama_keyless_amended.2 emptyEnv ⟨[], none, none, none, none⟩
      (some ("ollama".data)) (some ("m".data)) none none none (.sendError ("n".data))
      ⟨.ollama, ("m".data), none, none⟩ (by decide) (by decide) (by decide)⟩

/-- The normalizer fails with an unknown-role error as soon as some
message's role is not one of the three accepted ones. -/
theorem convert_fails_of_unknown_role : ∀ (msgs : List UIMessage),
    (∃ msg ∈ msgs, knownRole msg.role = false) →
    ∃ r, knownRole r = false ∧ (∃ msg ∈ msgs, msg.role = r) ∧
      convertUiMessagesToGenai msgs = .error (("Unknown role: ".data) ++ r) := by
  intro msgs h
  induction msgs with
  | nil => simp at h
  | cons msg rest ih =>
    rcases msg with ⟨role, parts⟩
    by_cases hr : knownRole role = false
    · refine ⟨role, hr, ⟨⟨role, parts⟩, List.mem_cons_self _ _, rfl⟩, ?_⟩
      have h1 : ¬ role = ("user".data) := by
        intro hh; rw [knownRole, hh] at hr; simp at hr
      have h2 : ¬ role = ("assistant".data) := by
        intro hh; rw [knownRole, hh] at hr; simp at hr
      have h3 : ¬ role = ("system".data) := by
        intro hh; rw [knownRole, hh] at hr; simp at hr
      simp [convertUiMessagesToGenai, h1, h2, h3]
    · have hrt : knownRole role = true := by
        cases hk : knownRole role
        · exact absurd hk hr
        · rfl
      have hrest : ∃ m ∈ rest, knownRole m.role = false := by
        rcases h with ⟨m, hm, hb⟩
        rcases List.mem_cons.mp hm with rfl | hm2
        · exact absurd hb hr
        · exact ⟨m, hm2, hb⟩
      rcases ih hrest with ⟨r, hbad, ⟨m, hm, hrole⟩, hconv⟩
      refine ⟨r, hbad, ⟨m, List.mem_cons_of_mem _ hm, hrole⟩, ?_⟩
      rw [knownRole] at hrt
      simp only [Bool.or_eq_true, decide_eq_true_eq] at hrt
      rcases hrt with (hu | ha) | hs
      · subst hu; simp [convertUiMessagesToGenai, hconv]
      · subst ha; simp [convertUiMessagesToGenai, hconv]
      · subst hs; simp [convertUiMessagesToGenai, hconv]

/-- C8 counterexample: a conversation with role `"tool"` makes the
normalizer fail, yet `chat_stream` does not call the normalizer: it builds
the provider request with the unknown role passed through verbatim and the
stream proceeds to completion. -/
theorem unknown_role_counterexample :
    convertUiMessagesToGenai [⟨("tool".data), [MessagePart.text ("hi".data)]⟩] =
      .error ("Unknown role: tool".data) ∧
    mkRoleMsg ("tool".data) ("hi".data) ∈
      buildMessages (getSystemPrompt false)
        ⟨[⟨("tool".data), [MessagePart.text ("hi".data)]⟩], none, none, none, none⟩ ∧
    chatStream emptyEnv
        (.ok ⟨[⟨("tool".data), [MessagePart.text ("hi".data)]⟩], none, none, none, none⟩)
        (some ("openai".data)) (some ("gpt".data)) (some ("k".data)) none none
        (.response true ("200".data) [] []) = ([.start, .finish none], .ok ()) := by
  refine ⟨by decide, by decide, by decide⟩

/-- C8 (amended): for every conversation containing a message whose role
is not system/user/assistant, the normalization function
`convert_ui_messages_to_genai` fails with an unknown-role error — but the
chat-stream command's request-building path does not invoke it: every
incoming message, whatever its role, appears verbatim in the built
`messages` array. -/
theorem unknown_role_amended (msgs : List UIMessage)
    (h : ∃ msg ∈ msgs, knownRole msg.role = false) :
    (∃ r, knownRole r = false ∧ (∃ msg ∈ msgs, msg.role = r) ∧
      convertUiMessagesToGenai msgs = .error (("Unknown role: ".data) ++ r)) ∧
    (∀ sys req, req.messages = msgs →
      ∀ msg ∈ msgs, mkRoleMsg msg.role (msgContent msg) ∈ buildMessages sys req) := by
  refine ⟨convert_fails_of_unknown_role msgs h, ?_⟩
  intro sys req hreq msg hm
  unfold buildMessages
  rw [hreq]
  exact List.mem_append.mpr (Or.inr (List.mem_map.mpr ⟨msg, hm, rfl⟩))

/-- C8 witness: the amended theorem at a concrete `"tool"`-role message. -/
theorem unknown_role_amended_witness :
    (∃ msg ∈ [(⟨("tool".data), [MessagePart.text ("hi".data)]⟩ : UIMessage)],
      knownRole msg.role = false) ∧
    mkRoleMsg ("tool".data)
        (msgContent ⟨("tool".data), [MessagePart.text ("hi".data)]⟩) ∈
      buildMessages (getSystemPrompt false)
        ⟨[⟨("tool".data), [MessagePart.text ("hi".data)]⟩], none, none, none, none⟩ :=
  ⟨by decide,
    (unknown_role_amended _ (by decide)).2 (getSystemPrompt false)
      ⟨[⟨("tool".data), [MessagePart.text ("hi".data)]⟩], none, none, none, none⟩ rfl
      ⟨("tool".data), [MessagePart.text ("hi".data)]⟩ (by decide)⟩

/-- A present map entry keeps its name and gains the appended fragment. -/
theorem mapLookup_mapAppendArgs_of_some (m : AccMap) (id args nm acc : Str)
    (h : mapLookup m id = some (nm, acc)) :
    mapLookup (mapAppendArgs m id args) id = some (nm, acc ++ args) := by
  induction m with
  | nil => simp [mapLookup] at h
  | cons e rest ih =>
    by_cases he : e.1 = id
    · rw [mapLookup, if_pos he] at h
      have h2 : e.2 = (nm, acc) := Option.some.inj h
      simp [mapAppendArgs, mapLookup, he, h2]
    · rw [mapLookup, if_neg he] at h
      simpa [mapAppendArgs, mapLookup, he] using ih h

/-- Appending to an absent id changes nothing. -/
theorem mapAppendArgs_of_none (m : AccMap) (id args : Str)
    (h : mapLookup m id = none) : mapAppendArgs m id args = m := by
  induction m with
  | nil => rfl
  | cons e rest ih =>
    by_cases he : e.1 = id
    · rw [mapLookup, if_pos he] at h
      exact absurd h (by simp)
    · rw [mapLookup, if_neg he] at h
      have hrest : rest.map (fun e => if e.1 = id then (e.1, e.2.1, e.2.2 ++ args) else e) =
          rest := by
        rw [show rest.map (fun e => if e.1 = id then (e.1, e.2.1, e.2.2 ++ args) else e) =
          mapAppendArgs rest id args from rfl]
        exact ih h
      simp [mapAppendArgs, he, hrest]

/-- Predicates `mapContains` and `mapLookup` agree. -/
theorem mapContains_eq_isSome_mapLookup (m : AccMap) (id : Str) :
    mapContains m id = (mapLookup m id).isSome := by
  induction m with
  | nil => rfl
  | cons e rest ih =>
    by_cases he : e.1 = id
    · simp [mapContains, mapLookup, he]
    · simpa [mapContains, mapLookup, he] using ih

/-- Looking up a freshly appended entry. -/
theorem mapLookup_append_fresh (m : AccMap) (id nm : Str)
    (h : mapLookup m id = none) :
    mapLookup (m ++ [(id, nm, [])]) id = some (nm, []) := by
  induction m with
  | nil => simp [mapLookup]
  | cons e rest ih =>
    by_cases he : e.1 = id
    · rw [mapLookup, if_pos he] at h
      exact absurd h (by simp)
    · rw [mapLookup, if_neg he] at h
      simpa [mapLookup, he] using ih h

/-- C4 counterexample: an argument fragment for a newly-seen id that
arrives without a `function.name` is emitted as `ToolInputDelta` but is
appended to no accumulated text — the map stays empty, so the id has no
accumulated argument text at all. -/
theorem fragment_without_entry_counterexample :
    handleToolCall
        (Json.obj (.cons ("id".data) (.str ("c1".data))
          (.cons ("function".data)
            (Json.obj (.cons ("arguments".data) (.str ("ab".data)) .nil)) .nil))) [] =
      ([], [.toolInputDelta ("c1".data) ("ab".data)]) ∧
    mapLookup
        (handleToolCall
          (Json.obj (.cons ("id".data) (.str ("c1".data))
            (.cons ("function".data)
              (Json.obj (.cons ("arguments".data) (.str ("ab".data)) .nil)) .nil))) []).1
        ("c1".data) = none := by
  exact ⟨by decide, by decide⟩

/-- C4 (amended): an argument fragment with a string id and an object
`function` always produces an immediate `ToolInputDelta` (as the last
event of the element's processing); the fragment is appended to the id's
accumulated text when the map already has an entry for the id, or when
this same element carries the id's `function.name` (creating the entry
first); but for an id with no entry and no name in the element, nothing is
accumulated. -/
theorem fragment_append_amended (tc : Json) (m : AccMap) (id args : Str) (fn : JsonObj)
    (hid : (tc.get ("id".data)).bind Json.asStr = some id)
    (hfn : (tc.get ("function".data)).bind Json.asObject = some fn)
    (hargs : (fn.find ("arguments".data)).bind Json.asStr = some args) :
    ((handleToolCall tc m).2).getLast? = some (.toolInputDelta id args) ∧
    (∀ nm acc, mapLookup m id = some (nm, acc) →
      mapLookup (handleToolCall tc m).1 id = some (nm, acc ++ args)) ∧
    (mapLookup m id = none →
      (((fn.find ("name".data)).bind Json.asStr = none → (handleToolCall tc m).1 = m) ∧
        (∀ nm, (fn.find ("name".data)).bind Json.asStr = some nm →
          mapLookup (handleToolCall tc m).1 id = some (nm, args)))) := by
  unfold handleToolCall
  rw [hid, hfn]
  dsimp only
  rcases hname : (fn.find ("name".data)).bind Json.asStr with - | nm
  · rw [hargs]
    dsimp only
    refine ⟨by simp, ?_, ?_⟩
    · intro nm acc hl
      simpa using mapLookup_mapAppendArgs_of_some m id args nm acc hl
    · intro hnone
      refine ⟨fun _ => by simpa using mapAppendArgs_of_none m id args hnone, ?_⟩
      intro nm hsome
      exact absurd hsome (by simp)
  · rw [hargs]
    dsimp only
    refine ⟨by simp, ?_, ?_⟩
    · intro nm2 acc hl
      have hc : mapContains m id = true := by
        rw [mapContains_eq_isSome_mapLookup, hl]
        rfl
      have : mapOrInsert m id nm = m := by
        rw [mapOrInsert, if_pos hc]
      rw [this]
      simpa using mapLookup_mapAppendArgs_of_some m id args nm2 acc hl
    · intro hnone
      refine ⟨fun hh => absurd hh (by simp), ?_⟩
      intro nm2 hsome
      have hnm : nm2 = nm := (Option.some.inj hsome).symm
      subst hnm
      have hc : mapContains m id = false := by
        rw [mapContains_eq_isSome_mapLookup, hnone]
        rfl
      have hins : mapOrInsert m id nm2 = m ++ [(id, nm2, [])] := by
        rw [mapOrInsert, if_neg (by rw [hc]; exact Bool.false_ne_true)]
      rw [hins]
      have hfresh := mapLookup_append_fresh m id nm2 hnone
      simpa using mapLookup_mapAppendArgs_of_some _ id args nm2 [] hfresh

/-- C4 witness: the amended theorem at a first-sighting element that
carries both name and arguments: the entry is created and holds exactly
the fragment. -/
theorem fragment_append_amended_witness :
    (((Json.obj (.cons ("id".data) (.str ("c1".data))
        (.cons ("function".data)
          (Json.obj (.cons ("name".data) (.str ("display_diagram".data))
            (.cons ("arguments".data) (.str ("ab".data)) .nil))) .nil))).get
        ("id".data)).bind Json.asStr = some ("c1".data)) ∧
    mapLookup (handleToolCall
        (Json.obj (.cons ("id".data) (.str ("c1".data))
          (.cons ("function".data)
            (Json.obj (.cons ("name".data) (.str ("display_diagram".data))
              (.cons ("arguments".data) (.str ("ab".data)) .nil))) .nil))) []).1
      ("c1".data) = some (("display_diagram".data), ("ab".data)) :=
  ⟨by decide,
    ((fragment_append_amended _ [] ("c1".data) ("ab".data)
        (JsonObj.cons ("name".data) (.str ("display_diagram".data))
          (.cons ("arguments".data) (.str ("ab".data)) .nil))
        (by decide) (by decide) (by decide)).2.2 (by decide)).2
      ("display_diagram".data) (by decide)⟩

/-- Every finalization event comes from some map entry whose accumulated
text parses. -/
theorem finalize_mem_inv (m : AccMap) (e : StreamEvent)
    (he : e ∈ finalizeToolCalls m) :
    ∃ id nm args v, (id, nm, args) ∈ m ∧ parseJson args = some v ∧
      e = .toolInputComplete id nm v := by
  induction m with
  | nil => simp [finalizeToolCalls] at he
  | cons entry rest ih =>
    rcases entry with ⟨id, nm, args⟩
    rw [finalizeToolCalls] at he
    rcases hp : parseJson args with - | v <;> rw [hp] at he
    · rcases ih he with ⟨id2, nm2, args2, v2, hmem, hpv, hev⟩
      exact ⟨id2, nm2, args2, v2, List.mem_cons_of_mem _ hmem, hpv, hev⟩
    · rcases List.mem_cons.mp he with rfl | he2
      · exact ⟨id, nm, args, v, List.mem_cons_self _ _, hp, rfl⟩
      · rcases ih he2 with ⟨id2, nm2, args2, v2, hmem, hpv, hev⟩
        exact ⟨id2, nm2, args2, v2, List.mem_cons_of_mem _ hmem, hpv, hev⟩

/-- Every map entry whose accumulated text parses produces its
finalization event. -/
theorem finalize_mem_of_parse (m : AccMap) (id nm args : Str) (v : Json)
    (hmem : (id, nm, args) ∈ m) (hp : parseJson args = some v) :
    StreamEvent.toolInputComplete id nm v ∈ finalizeToolCalls m := by
  induction m with
  | nil => simp at hmem
  | cons entry rest ih =>
    rcases List.mem_cons.mp hmem with heq | h2
    · rw [← heq, finalizeToolCalls, hp]
      exact List.mem_cons_self _ _
    · rcases entry with ⟨id2, nm2, args2⟩
      rw [finalizeToolCalls]
      rcases hp2 : parseJson args2 with - | v2
      · exact ih h2
      · exact List.mem_cons_of_mem _ (ih h2)

/-- An entry whose accumulated text fails to parse produces no
finalization event for its id, when the map's keys are distinct (as they
are for a `HashMap`). -/
theorem finalize_not_mem_of_parse_fail (m : AccMap) (id nm args : Str)
    (hmem : (id, nm, args) ∈ m) (hp : parseJson args = none)
    (hnd : (m.map (fun e => e.1)).Nodup) :
    ∀ nm2 v, StreamEvent.toolInputComplete id nm2 v ∉ finalizeToolCalls m := by
  intro nm2 v hin
  rcases finalize_mem_inv m _ hin with ⟨id2, nm3, args2, v2, hmem2, hp2, hev⟩
  have hid : id = id2 := by
    injection hev with h1 h2 h3
  rcases hid with rfl
  have heq : ((id, nm, args) : Str × Str × Str) = (id, nm3, args2) :=
    List.inj_on_of_nodup_map hnd hmem hmem2 rfl
  have hargs : args = args2 := by
    injection (Prod.mk.inj heq).2 with ha hb
  rw [← hargs] at hp2
  rw [hp] at hp2
  exact Option.noConfusion hp2

/-- C5: at a finish signal every map entry is finalized by parsing its
accumulated text: on success a `ToolInputComplete` with the entry's id,
its first-seen tool name and the parsed value is emitted; on failure no
event for that id is emitted and nothing else takes its place (every
finalization event is a `ToolInputComplete` of some successfully parsed
entry).  The first-seen name is preserved because re-declaring an existing
id leaves the map untouched, and a pure finish line emits exactly the
finalization events. -/
theorem finalize_on_finish_spec (m : AccMap) :
    (∀ e ∈ finalizeToolCalls m, ∃ id nm v, e = .toolInputComplete id nm v) ∧
    (∀ id nm args v, (id, nm, args) ∈ m → parseJson args = some v →
      StreamEvent.toolInputComplete id nm v ∈ finalizeToolCalls m) ∧
    (∀ id nm args, (id, nm, args) ∈ m → parseJson args = none →
      (m.map (fun e => e.1)).Nodup →
      ∀ nm2 v, StreamEvent.toolInputComplete id nm2 v ∉ finalizeToolCalls m) ∧
    (∀ id nm2, mapContains m id = true → mapOrInsert m id nm2 = m) ∧
    (∀ (j choice : Json) (choices : List Json) (r : Str) (m2 : AccMap),
      (j.get ("choices".data)).bind Json.asArray = some choices →
      choices.head? = some choice →
      (choice.get ("delta".data)).bind Json.asObject = none →
      (choice.get ("finish_reason".data)).bind Json.asStr = some r →
      (r = ("stop".data) ∨ r = ("tool_calls".data)) →
      handleParsed j m2 = (m2, finalizeToolCalls m2)) := by
  refine ⟨?_, ?_, ?_, ?_, ?_⟩
  · intro e he
    rcases finalize_mem_inv m e he with ⟨id, nm, args, v, _, _, hev⟩
    exact ⟨id, nm, v, hev⟩
  · exact fun id nm args v hmem hp => finalize_mem_of_parse m id nm args v hmem hp
  · exact fun id nm args hmem hp hnd => finalize_not_mem_of_parse_fail m id nm args hmem hp hnd
  · intro id nm2 hc
    rw [mapOrInsert, if_pos hc]
  · intro j choice choices r m2 hchoices hhead hdelta hfin hr
    unfold handleParsed
    rw [hchoices]
    dsimp only
    rw [hhead]
    dsimp only
    rw [hdelta, hfin]
    dsimp only
    rcases hr with rfl | rfl
    · rw [if_pos (Or.inl rfl)]
      simp
    · rw [if_pos (Or.inr rfl)]
      simp

/-- C5 witness: a concrete map with one parsing entry and one failing
entry: the first yields its `ToolInputComplete`, the second yields no
event for its id. -/
theorem finalize_on_finish_spec_witness :
    parseJson ("\x7b\"xml\":\"<root/>\"\x7d".data) =
      some (Json.obj (.cons ("xml".data) (.str ("<root/>".data)) .nil)) ∧
    parseJson ("\x7b".data) = none ∧
    StreamEvent.toolInputComplete ("c1".data) ("display_diagram".data)
        (Json.obj (.cons ("xml".data) (.str ("<root/>".data)) .nil)) ∈
      finalizeToolCalls
        [(("c1".data), ("display_diagram".data), ("\x7b\"xml\":\"<root/>\"\x7d".data)),
         (("c2".data), ("edit_diagram".data), ("\x7b".data))] ∧
    StreamEvent.toolInputComplete ("c2".data) ("edit_diagram".data) Json.null ∉
      finalizeToolCalls
        [(("c1".data), ("display_diagram".data), ("\x7b\"xml\":\"<root/>\"\x7d".data)),
         (("c2".data), ("edit_diagram".data), ("\x7b".data))] :=
  ⟨by decide, by decide,
    (finalize_on_finish_spec
        [(("c1".data), ("display_diagram".data), ("\x7b\"xml\":\"<root/>\"\x7d".data)),
         (("c2".data), ("edit_diagram".data), ("\x7b".data))]).2.1
      ("c1".data) ("display_diagram".data) ("\x7b\"xml\":\"<root/>\"\x7d".data)
      (Json.obj (.cons ("xml".data) (.str ("<root/>".data)) .nil)) (by decide) (by decide),
    (finalize_on_finish_spec
        [(("c1".data), ("display_diagram".data), ("\x7b\"xml\":\"<root/>\"\x7d".data)),
         (("c2".data), ("edit_diagram".data), ("\x7b".data))]).2.2.1
      ("c2".data) ("edit_diagram".data) ("\x7b".data) (by decide) (by decide) (by decide)
      ("edit_diagram".data) Json.null⟩

/-- Tool-call element processing emits only mid-stream events. -/
theorem handleToolCall_events (tc : Json) (m : AccMap) :
    ∀ ev ∈ (handleToolCall tc m).2, isMidEvent ev = true := by
  unfold handleToolCall
  rcases (tc.get ("id".data)).bind Json.asStr with - | id
  · simp
  · rcases (tc.get ("function".data)).bind Json.asObject with - | fn
    · simp
    · dsimp only
      rcases (fn.find ("name".data)).bind Json.asStr with - | nm <;>
        rcases (fn.find ("arguments".data)).bind Json.asStr with - | args
      · simp
      · intro ev hev
        simp at hev
        subst hev
        rfl
      · intro ev hev
        simp at hev
        subst hev
        rfl
      · intro ev hev
        simp at hev
        rcases hev with rfl | rfl <;> rfl

/-- A whole `tool_calls` array emits only mid-stream events. -/
theorem handleToolCalls_events (tcs : List Json) : ∀ (m : AccMap),
    ∀ ev ∈ (handleToolCalls tcs m).2, isMidEvent ev = true := by
  induction tcs with
  | nil => simp [handleToolCalls]
  | cons tc rest ih =>
    intro m ev hev
    rw [handleToolCalls] at hev
    dsimp only at hev
    rcases List.mem_append.mp hev with h | h
    · exact handleToolCall_events tc m ev h
    · exact ih (handleToolCall tc m).1 ev h

/-- The content branch of delta handling emits only mid-stream events. -/
theorem contentEvs_mid (delta : JsonObj) :
    ∀ ev ∈ (match (delta.find ("content".data)).bind Json.asStr with
            | some content =>
              if content ≠ [] then [StreamEvent.textDelta content] else []
            | none => ([] : List StreamEvent)), isMidEvent ev = true := by
  rcases (delta.find ("content".data)).bind Json.asStr with - | c
  · simp
  · by_cases hc : c = []
    · simp [hc]
    · intro ev hev
      simp [hc] at hev
      subst hev
      rfl

/-- Delta handling emits only mid-stream events. -/
theorem handleDelta_events (delta : JsonObj) (m : AccMap) :
    ∀ ev ∈ (handleDelta delta m).2, isMidEvent ev = true := by
  intro ev hev
  unfold handleDelta at hev
  rcases htc : (delta.find ("tool_calls".data)).bind Json.asArray with - | tcs <;>
    rw [htc] at hev <;> dsimp only at hev
  · exact contentEvs_mid delta ev hev
  · rcases List.mem_append.mp hev with h | h
    · exact contentEvs_mid delta ev h
    · exact handleToolCalls_events tcs m ev h

/-- Finalization emits only mid-stream events. -/
theorem finalize_events_mid (m : AccMap) :
    ∀ ev ∈ finalizeToolCalls m, isMidEvent ev = true := by
  intro ev he
  rcases finalize_mem_inv m ev he with ⟨id, nm, args, v, _, _, rfl⟩
  rfl

/-- Handling one parsed SSE object emits only mid-stream events. -/
theorem handleParsed_events (j : Json) (m : AccMap) :
    ∀ ev ∈ (handleParsed j m).2, isMidEvent ev = true := by
  intro ev hev
  unfold handleParsed at hev
  rcases h1 : (j.get ("choices".data)).bind Json.asArray with - | choices <;>
    rw [h1] at hev <;> dsimp only at hev
  · simp at hev
  · rcases h2 : choices.head? with - | choice <;> rw [h2] at hev <;> dsimp only at hev
    · simp at hev
    · rcases List.mem_append.mp hev with h | h
      · rcases h3 : (choice.get ("delta".data)).bind Json.asObject with - | delta <;>
          rw [h3] at h <;> dsimp only at h
        · simp at h
        · exact handleDelta_events delta m ev h
      · rcases h4 : (choice.get ("finish_reason".data)).bind Json.asStr with - | r <;>
          rw [h4] at h <;> dsimp only at h
        · simp at h
        · by_cases h5 : r = ("stop".data) ∨ r = ("tool_calls".data)
          · rw [if_pos h5] at h
            exact finalize_events_mid _ ev h
          · rw [if_neg h5] at h
            simp at h

/-- Handling one extracted line emits only mid-stream events. -/
theorem handleLine_events (line : List Char) (m : AccMap) :
    ∀ ev ∈ (handleLine line m).2, isMidEvent ev = true := by
  intro ev hev
  unfold handleLine at hev
  dsimp only at hev
  by_cases h1 : trim line = [] ∨ trim line = ("data: [DONE]".data)
  · rw [if_pos h1] at hev
    simp at hev
  · rw [if_neg h1] at hev
    rcases h2 : stripLeading ("data: ".data) (trim line) with - | d <;>
      rw [h2] at hev <;> dsimp only at hev
    · simp at hev
    · rcases h3 : parseJson d with - | j <;> rw [h3] at hev <;> dsimp only at hev
      · simp at hev
      · exact handleParsed_events j m ev hev

/-- A batch of lines emits only mid-stream events. -/
theorem handleLines_events (ls : List (List Char)) : ∀ (m : AccMap),
    ∀ ev ∈ (handleLines ls m).2, isMidEvent ev = true := by
  induction ls with
  | nil => simp [handleLines]
  | cons l rest ih =>
    intro m ev hev
    rw [handleLines] at hev
    dsimp only at hev
    rcases List.mem_append.mp hev with h | h
    · exact handleLine_events l m ev h
    · exact ih (handleLine l m).1 ev h

/-- The streaming loop emits only mid-stream events: never `Start`, never
`Finish`, never `Error`. -/
theorem sseLoop_events (cs : List (Except Str (List Nat))) : ∀ (buf : List Char)
    (m : AccMap), ∀ ev ∈ (sseLoop cs buf m).1, isMidEvent ev = true := by
  induction cs with
  | nil => simp [sseLoop]
  | cons c rest ih =>
    intro buf m ev hev
    cases c with
    | error e => simp [sseLoop] at hev
    | ok bytes =>
      rw [sseLoop] at hev
      dsimp only at hev
      rcases List.mem_append.mp hev with h | h
      · exact handleLines_events _ _ ev h
      · exact ih _ _ ev h

/-- C2 (amended): on every execution of `chat_stream`, either the request
is rejected before any event is emitted (with the failure returned as the
command's error result), or `Start` is the first event and is emitted
exactly once, and then: on the path where the HTTP response is successful
and the whole chunk stream is consumed, exactly one terminal event —
`Finish` — is emitted, as the last event, with only mid-stream events in
between; on every failure path after `Start` (send failure, non-success
status, mid-stream chunk error) NO terminal event is emitted at all — the
failure is returned as the command's error result instead.  (The claim as
stated — that a terminal event closes the stream on every path including
HTTP failure after `Start` — is refuted by the counterexample; the code
never emits a `StreamEvent::Error` and returns `Err` without a terminal
event on those paths.) -/
theorem stream_event_protocol (env : Env) (payload : Except Str ChatRequestPayload)
    (po mo ko bo : Option Str) (ms : Option Bool) (http : HttpOutcome) :
    ((chatStream env payload po mo ko bo ms http).1 = [] ∧
      ∃ e, (chatStream env payload po mo ko bo ms http).2 = .error e) ∨
    (∃ mid0, (chatStream env payload po mo ko bo ms http).1 =
        .start :: (mid0 ++ [.finish none]) ∧
      (∀ ev ∈ mid0, isMidEvent ev = true) ∧
      (chatStream env payload po mo ko bo ms http).2 = .ok ()) ∨
    (∃ mid, (chatStream env payload po mo ko bo ms http).1 = .start :: mid ∧
      (∀ ev ∈ mid, isMidEvent ev = true) ∧
      ∃ e, (chatStream env payload po mo ko bo ms http).2 = .error e) := by
  unfold chatStream
  rcases payload with e | request
  · exact Or.inl ⟨rfl, _, rfl⟩
  · dsimp only
    cases hac : accessCheck env request.accessCode
    · rw [if_pos (show (!false) = true from rfl)]
      exact Or.inl ⟨rfl, _, rfl⟩
    · rw [if_neg (show ¬ (!true) = true by decide)]
      rcases hcfg : fromEnvAndOverrides po mo ko bo env with e | config
      · exact Or.inl ⟨rfl, _, rfl⟩
      · dsimp only
        rcases hkey : config.apiKey with - | key
        · exact Or.inl ⟨rfl, _, rfl⟩
        · dsimp only
          rcases http with e | ⟨ss, st, eb, chunks⟩
          · exact Or.inr (Or.inr ⟨[], rfl, by simp, _, rfl⟩)
          · cases ss
            · exact Or.inr (Or.inr ⟨[], rfl, by simp, _, rfl⟩)
            · rw [show (HttpOutcome.response true st eb chunks : HttpOutcome) = .response true st eb chunks from rfl]
              dsimp only
              rw [if_neg (show ¬ (!true) = true by decide)]
              rcases hp : (sseLoop chunks [] []).2 with e | u
              · exact Or.inr (Or.inr ⟨(sseLoop chunks [] []).1, rfl,
                  sseLoop_events chunks [] [], _, rfl⟩)
              · exact Or.inr (Or.inl ⟨(sseLoop chunks [] []).1, rfl,
                  sseLoop_events chunks [] [], rfl⟩)

/-- C2 counterexample: an accepted request (Start was emitted) whose HTTP
response has a non-success status: the emitted event sequence is exactly
`[Start]` — no terminal event ends it, contradicting the claim that every
accepted stream ends with exactly one Finish/Error event. -/
theorem stream_event_protocol_counterexample :
    (chatStream emptyEnv (.ok ⟨[], none, none, none, none⟩) (some ("openai".data))
        (some ("gpt".data)) (some ("k".data)) none none
        (.response false ("500".data) ("boom".data) [])).1 = [.start] ∧
    ¬ ∃ (mid : List StreamEvent) (t : StreamEvent),
        (chatStream emptyEnv (.ok ⟨[], none, none, none, none⟩) (some ("openai".data))
            (some ("gpt".data)) (some ("k".data)) none none
            (.response false ("500".data) ("boom".data) [])).1 =
          .start :: (mid ++ [t]) ∧ isTerminal t = true := by
  have h0 : (chatStream emptyEnv (.ok ⟨[], none, none, none, none⟩)
      (some ("openai".data)) (some ("gpt".data)) (some ("k".data)) none none
      (.response false ("500".data) ("boom".data) [])).1 = [.start] := by decide
  refine ⟨h0, ?_⟩
  rintro ⟨mid, t, h, ht⟩
  rw [h0] at h
  have hlen := congrArg List.length h
  simp at hlen

end DrawioGateway
